import Mathlib

/-!
Shallow embedding of the `go-mtmc` emulator (package `internal/emulator`,
file `mtmc.go`), together with the loader and the snapshot accessor, and
theorems checking the specification's claims against it.

Modelling conventions:
* Go `uint16` values are `Nat` values; every arithmetic operation that the
  Go code performs on `uint16` is followed by an explicit `% 65536`
  (or is bounded by construction, as bitwise `&&&`/`|||`/`>>>` are).
* Go byte slices are `List Nat` (each entry a byte value).
* A Go run-time panic (out-of-range slice indexing or slicing) is modelled
  by `Option`: `none` is the panic, `some s` a normal return.
-/

namespace MTMCEmu

/-- `WordSize = 2` from `mtmc.go`. -/
def WordSize : Nat := 2

/-- `MemorySize = 1 << 4` from `mtmc.go`.  The source comment on this
constant reads "4096 bytes (4K)", but `1 <<< 4 = 16`. -/
def MemorySize : Nat := 1 <<< 4

/-- Modelled from the spec: the register-index constants of the emulator
package (`R0..R7, GP, FP, SP, RA, HI, LO, PC, SR`) are declared in a file of
this repository that is not under `src/`; the spec fixes a 16-slot register
file with special program-counter / stack-pointer / status slots, and the
snapshot function `GetState` lists the names in this order, so the indices
follow that order: `R0..R7 = 0..7`, `GP = 8`, `FP = 9`, `SP = 10`,
`RA = 11`, `HI = 12`, `LO = 13`, `PC = 14`, `SR = 15`. -/
def PCreg : Nat := 14

/-- Modelled from the spec: stack-pointer register index (see `PCreg`). -/
def SPreg : Nat := 10

/-- The mutable state of `MonTanaMiniComputer`: the byte memory, the sixteen
16-bit registers, and the running flag.  (The mutex and the observer list
carry no machine state and are omitted.) -/
structure MTMC where
  Memory : List Nat
  Registers : List Nat
  Running : Bool
deriving Repr, DecidableEq

/-- `New` from `mtmc.go`: zeroed memory of `MemorySize` bytes, zeroed
registers except `SP`, which is initialized to `MemorySize - 2`
(the top of memory), `Running` false (Go zero value). -/
def New : MTMC :=
  { Memory := List.replicate MemorySize 0
    Registers := (List.replicate 16 0).set SPreg (MemorySize - 2)
    Running := false }

/-- `binary.BigEndian.Uint16(mem[addr:])`: big-endian word read.  Go panics
when fewer than two bytes are available, hence `none` in that case. -/
def readWord (mem : List Nat) (addr : Nat) : Option Nat :=
  if addr + 1 < mem.length then
    some ((mem.getD addr 0) <<< 8 ||| mem.getD (addr + 1) 0)
  else none

/-- `binary.BigEndian.PutUint16(mem[addr:], v)`: big-endian word write of the
high byte then the low byte.  Go performs an early bounds check and panics
(writing nothing) when fewer than two bytes are available, hence `none`. -/
def writeWord (mem : List Nat) (addr v : Nat) : Option (List Nat) :=
  if addr + 1 < mem.length then
    some ((mem.set addr ((v >>> 8) % 256)).set (addr + 1) (v % 256))
  else none

/-- A decoded instruction: the field extraction of `step` in `mtmc.go`. -/
structure Instr where
  opCode : Nat
  regD : Nat
  regS : Nat
  regT : Nat
  imm : Nat
deriving Repr, DecidableEq

/-- The decode portion of `step`: fixed masks and shifts on the 16-bit
instruction word.  Note that the Go code computes
`imm := int16(instruction & 0b0000000011111111)`: the masked value is in
`0..255`, so the conversion to `int16` preserves it unchanged (there is no
sign extension in the source), and the later `uint16(imm)` conversions
give the same value back, so `imm` is modelled as that `Nat`. -/
def decode (instruction : Nat) : Instr :=
  { opCode := (instruction &&& 0b1111000000000000) >>> 12
    regD := (instruction &&& 0b0000111100000000) >>> 8
    regS := (instruction &&& 0b0000000011110000) >>> 4
    regT := instruction &&& 0b0000000000001111
    imm := instruction &&& 0b0000000011111111 }

/-- Read register `i` (Go `c.Registers[regX]`; the index is a 4-bit field,
always within the 16-element array). -/
def regGet (c : MTMC) (i : Nat) : Nat := c.Registers.getD i 0

/-- Write register `i` (Go `c.Registers[regX] = v`). -/
def regSet (c : MTMC) (i v : Nat) : MTMC :=
  { c with Registers := c.Registers.set i v }

/-- Go `uint16` subtraction `a - b` for `a, b < 65536`:
two's-complement wraparound. -/
def sub16 (a b : Nat) : Nat := (a + 65536 - b) % 65536

/-- The dispatch `switch opCode` of `step` in `mtmc.go`, executed on the
state in which the program counter has already been advanced. -/
def execute (c : MTMC) (i : Instr) : Option MTMC :=
  if i.opCode = 0b0001 then -- ADD
    some (regSet c i.regD ((regGet c i.regS + regGet c i.regT) % 65536))
  else if i.opCode = 0b0010 then -- SUB
    some (regSet c i.regD (sub16 (regGet c i.regS) (regGet c i.regT)))
  else if i.opCode = 0b0011 then -- AND
    some (regSet c i.regD (regGet c i.regS &&& regGet c i.regT))
  else if i.opCode = 0b0100 then -- OR
    some (regSet c i.regD (regGet c i.regS ||| regGet c i.regT))
  else if i.opCode = 0b0101 then -- XOR
    some (regSet c i.regD (regGet c i.regS ^^^ regGet c i.regT))
  else if i.opCode = 0b0110 then -- SLL
    some (regSet c i.regD ((regGet c i.regS <<< regGet c i.regT) % 65536))
  else if i.opCode = 0b0111 then -- SRL
    some (regSet c i.regD (regGet c i.regS >>> regGet c i.regT))
  else if i.opCode = 0b1001 then -- ADDI
    some (regSet c i.regD ((regGet c i.regS + i.imm) % 65536))
  else if i.opCode = 0b1010 then -- SUBI
    some (regSet c i.regD (sub16 (regGet c i.regS) i.imm))
  else if i.opCode = 0b1100 then -- LW
    let addr := (regGet c i.regS + i.imm) % 65536
    match readWord c.Memory addr with
    | none => none
    | some v => some (regSet c i.regD v)
  else if i.opCode = 0b1101 then -- SW
    let addr := (regGet c i.regS + i.imm) % 65536
    match writeWord c.Memory addr (regGet c i.regD) with
    | none => none
    | some m => some { c with Memory := m }
  else if i.opCode = 0b1110 then -- BZ
    if regGet c i.regS = 0 then
      some (regSet c PCreg ((regGet c PCreg + i.imm * 2 % 65536) % 65536))
    else some c
  else if i.opCode = 0b1111 then -- HALT
    some { c with Running := false }
  else -- unknown instruction
    some { c with Running := false }

/-- `step` from `mtmc.go`: pre-fetch program-counter bounds check, big-endian
fetch, program-counter advance by 2, then decode and dispatch. -/
def step (c : MTMC) : Option MTMC :=
  let pc := regGet c PCreg
  if pc ≥ MemorySize - 1 then
    some { c with Running := false }
  else
    match readWord c.Memory pc with
    | none => none
    | some instruction =>
      execute (regSet c PCreg ((pc + 2) % 65536)) (decode instruction)

/-- The `copy(c.Memory[address:], program)` of `LoadProgram`: writes the
program bytes in order starting at `address`; like Go's `copy`, writing
stops at the end of the destination (`List.set` out of range is the
identity). -/
def copyInto (mem : List Nat) (address : Nat) : List Nat → List Nat
  | [] => mem
  | b :: rest => copyInto (mem.set address b) (address + 1) rest

/-- `LoadProgram` from `mtmc.go`: copy the program into memory at `address`
and set the program counter to `address`.  `address` is a Go `uint16`, so it
is taken modulo 65536; Go panics on `c.Memory[address:]` when the address
exceeds the memory length, hence `none` there.  `Running` is not touched. -/
def LoadProgram (c : MTMC) (program : List Nat) (address : Nat) : Option MTMC :=
  let a := address % 65536
  if a ≤ c.Memory.length then
    some { c with
      Memory := copyInto c.Memory a program
      Registers := c.Registers.set PCreg a }
  else none

/-- The memory window `c.Memory[:256]` taken by `GetState` in `mtmc.go`:
Go panics when the slice's capacity is below 256, hence `none` then. -/
def memoryWindow (c : MTMC) : Option (List Nat) :=
  if 256 ≤ c.Memory.length then some (c.Memory.take 256) else none

/-- `GetState` from `mtmc.go`: the snapshot of registers, running flag and
the 256-byte display window of memory; faults (`none`) exactly when the
window slicing does. -/
def GetState (c : MTMC) : Option (List Nat × Bool × List Nat) :=
  match memoryWindow c with
  | none => none
  | some w => some (c.Registers, c.Running, w)

end MTMCEmu

namespace MTMCEmu

/-! ### Basic facts about the embedding -/

theorem MemorySize_eq : MemorySize = 16 := rfl

theorem getD_set_self (l : List Nat) (i v : Nat) (h : i < l.length) :
    (l.set i v).getD i 0 = v := by
  simp [List.getElem?_set_self h]

theorem getD_set_ne (l : List Nat) (i j v : Nat) (h : i ≠ j) :
    (l.set i v).getD j 0 = l.getD j 0 := by
  simp [List.getElem?_set_ne h]

theorem getD_lt_of_all (l : List Nat) (b i : Nat) (hb : 0 < b)
    (h : ∀ v ∈ l, v < b) : l.getD i 0 < b := by
  rcases Nat.lt_or_ge i l.length with hi | hi
  · rw [List.getD_eq_getElem?_getD, List.getElem?_eq_getElem hi]
    exact h _ (List.getElem_mem hi)
  · rw [List.getD_eq_getElem?_getD, List.getElem?_eq_none hi]
    exact hb

/-- Shifted-mask extraction: `and` with a mask of `n` ones shifted by `k`
places, then shifting right by `k`, extracts bits `k .. k+n-1`. -/
theorem and_mask_shift (w k n m : Nat) (hm : m = (2 ^ n - 1) <<< k) :
    (w &&& m) >>> k = w / 2 ^ k % 2 ^ n := by
  subst hm
  rw [← Nat.shiftRight_eq_div_pow]
  apply Nat.eq_of_testBit_eq
  intro i
  simp only [Nat.testBit_shiftRight, Nat.testBit_and, Nat.testBit_mod_two_pow,
    Nat.testBit_shiftLeft, Nat.testBit_two_pow_sub_one]
  by_cases h : i < n
  · simp [h, Nat.le_add_right, Nat.add_sub_cancel_left]
  · simp [h]

theorem decode_opCode_eq (w : Nat) : (decode w).opCode = w / 2 ^ 12 % 2 ^ 4 :=
  and_mask_shift w 12 4 _ (by decide)

theorem decode_regD_eq (w : Nat) : (decode w).regD = w / 2 ^ 8 % 2 ^ 4 :=
  and_mask_shift w 8 4 _ (by decide)

theorem decode_regS_eq (w : Nat) : (decode w).regS = w / 2 ^ 4 % 2 ^ 4 :=
  and_mask_shift w 4 4 _ (by decide)

theorem decode_regT_eq (w : Nat) : (decode w).regT = w % 2 ^ 4 := by
  simpa using Nat.and_pow_two_sub_one_eq_mod w 4

theorem decode_imm_eq (w : Nat) : (decode w).imm = w % 2 ^ 8 := by
  simpa using Nat.and_pow_two_sub_one_eq_mod w 8

theorem decode_regD_lt (w : Nat) : (decode w).regD < 16 := by
  rw [decode_regD_eq]; exact Nat.mod_lt _ (by decide)

theorem decode_regS_lt (w : Nat) : (decode w).regS < 16 := by
  rw [decode_regS_eq]; exact Nat.mod_lt _ (by decide)

theorem decode_regT_lt (w : Nat) : (decode w).regT < 16 := by
  rw [decode_regT_eq]; exact Nat.mod_lt _ (by decide)

theorem decode_opCode_lt (w : Nat) : (decode w).opCode < 16 := by
  rw [decode_opCode_eq]; exact Nat.mod_lt _ (by decide)

theorem decode_imm_le (w : Nat) : (decode w).imm ≤ 255 :=
  Nat.and_le_right

/-! ### Symbolic reduction of `step` -/

theorem step_eq (c : MTMC) (w : Nat) (hpc : regGet c PCreg < MemorySize - 1)
    (hw : readWord c.Memory (regGet c PCreg) = some w) :
    step c = execute (regSet c PCreg ((regGet c PCreg + 2) % 65536)) (decode w) := by
  unfold step
  rw [if_neg (by omega), hw]

theorem execute_add (c : MTMC) (i : Instr) (h : i.opCode = 1) :
    execute c i = some (regSet c i.regD ((regGet c i.regS + regGet c i.regT) % 65536)) := by
  simp [execute, h]

theorem execute_sub (c : MTMC) (i : Instr) (h : i.opCode = 2) :
    execute c i = some (regSet c i.regD (sub16 (regGet c i.regS) (regGet c i.regT))) := by
  simp [execute, h]

theorem execute_bz (c : MTMC) (i : Instr) (h : i.opCode = 14) :
    execute c i =
      if regGet c i.regS = 0 then
        some (regSet c PCreg ((regGet c PCreg + i.imm * 2 % 65536) % 65536))
      else some c := by
  simp [execute, h]

theorem execute_unknown (c : MTMC) (i : Instr)
    (h : i.opCode = 0 ∨ i.opCode = 8 ∨ i.opCode = 11) :
    execute c i = some { c with Running := false } := by
  rcases h with h | h | h <;> simp [execute, h]

/-! ### Facts about `copyInto` -/

theorem copyInto_length (p : List Nat) (mem : List Nat) (a : Nat) :
    (copyInto mem a p).length = mem.length := by
  induction p generalizing mem a with
  | nil => rfl
  | cons b rest ih => simp [copyInto, ih]

theorem copyInto_getD_lt (p : List Nat) (mem : List Nat) (a j : Nat) (hj : j < a) :
    (copyInto mem a p).getD j 0 = mem.getD j 0 := by
  induction p generalizing mem a with
  | nil => rfl
  | cons b rest ih =>
    rw [copyInto, ih _ _ (by omega), getD_set_ne _ _ _ _ (by omega)]

theorem copyInto_getD_ge (p : List Nat) (mem : List Nat) (a j : Nat)
    (hj : a + p.length ≤ j) :
    (copyInto mem a p).getD j 0 = mem.getD j 0 := by
  induction p generalizing mem a with
  | nil => rfl
  | cons b rest ih =>
    simp only [List.length_cons] at hj
    rw [copyInto, ih _ _ (by omega), getD_set_ne _ _ _ _ (by omega)]

theorem copyInto_getD_mid (p : List Nat) (mem : List Nat) (a i : Nat)
    (hi : i < p.length) (hlen : a + p.length ≤ mem.length) :
    (copyInto mem a p).getD (a + i) 0 = p.getD i 0 := by
  induction p generalizing mem a i with
  | nil => simp at hi
  | cons b rest ih =>
    simp only [List.length_cons] at hi hlen
    rw [copyInto]
    match i with
    | 0 =>
      rw [show a + 0 = a from rfl,
        copyInto_getD_lt rest (mem.set a b) (a + 1) a (by omega),
        getD_set_self mem a b (by omega)]
      rfl
    | Nat.succ i' =>
      rw [show a + (i' + 1) = (a + 1) + i' from by omega,
        ih (mem.set a b) (a + 1) i' (by omega) (by rw [List.length_set]; omega)]
      rfl

end MTMCEmu

namespace MTMCEmu

/-! ### Example machines used by the witnesses -/

/-- A machine about to execute `ADD R3, R1, R2` (word 0x1312) with
`R1 = 2`, `R2 = 3`. -/
def addEx : MTMC :=
  { Memory := [0x13, 0x12, 0, 0, 0, 0, 0, 0, 0, 0, 0, 0, 0, 0, 0, 0]
    Registers := [0, 2, 3, 0, 0, 0, 0, 0, 0, 0, 0, 0, 0, 0, 0, 0]
    Running := true }

/-- A machine about to execute `SUB R3, R1, R2` (word 0x2312) with
`R1 = 5`, `R2 = 3`. -/
def subEx : MTMC :=
  { Memory := [0x23, 0x12, 0, 0, 0, 0, 0, 0, 0, 0, 0, 0, 0, 0, 0, 0]
    Registers := [0, 5, 3, 0, 0, 0, 0, 0, 0, 0, 0, 0, 0, 0, 0, 0]
    Running := true }

/-- A machine about to execute `ADD R3, R1, R2` (word 0x1312) with
`R1 = 65535`, `R2 = 1` (wraparound case). -/
def wrapEx : MTMC :=
  { Memory := [0x13, 0x12, 0, 0, 0, 0, 0, 0, 0, 0, 0, 0, 0, 0, 0, 0]
    Registers := [0, 65535, 1, 0, 0, 0, 0, 0, 0, 0, 0, 0, 0, 0, 0, 0]
    Running := true }

/-- A machine about to execute `BZ` testing `R1 = 0` with immediate 16
(word 0xE010): the branch is taken. -/
def bzTakenEx : MTMC :=
  { Memory := [0xE0, 0x10, 0, 0, 0, 0, 0, 0, 0, 0, 0, 0, 0, 0, 0, 0]
    Registers := [0, 0, 0, 0, 0, 0, 0, 0, 0, 0, 0, 0, 0, 0, 0, 0]
    Running := true }

/-- A machine about to execute `BZ` testing `R1 = 7` with immediate 16
(word 0xE010): the branch falls through. -/
def bzFallEx : MTMC :=
  { Memory := [0xE0, 0x10, 0, 0, 0, 0, 0, 0, 0, 0, 0, 0, 0, 0, 0, 0]
    Registers := [0, 7, 0, 0, 0, 0, 0, 0, 0, 0, 0, 0, 0, 0, 0, 0]
    Running := true }

end MTMCEmu

namespace MTMCEmu

/-! ### The claims -/

/-- C1: the claim states that the memory buffer allocated by `New` has
length 4096 and that every address-validity check is taken against that
capacity.  Evaluating the code: `MemorySize` is `1 <<< 4 = 16` and the
buffer `New` allocates has length 16, not 4096 (the source comment
"4096 bytes (4K)" notwithstanding). -/
theorem c1_memory_capacity_is_sixteen :
    MemorySize = 16 ∧ New.Memory.length = 16 ∧ MemorySize ≠ 4096 := by
  refine ⟨rfl, ?_, by decide⟩
  simp [New, MemorySize_eq]

/-- C2: decoding is a pure, total function of the 16-bit instruction word:
for every word it yields the structured instruction whose fields are exactly
bits 15:12 (opcode), bits 11:8 (destination/first register), bits 7:4
(second register), bits 3:0 (third register) and bits 7:0 (immediate
byte); it never fails. -/
theorem c2_decode_total_bit_exact (w : Nat) :
    decode w =
      { opCode := w / 2 ^ 12 % 2 ^ 4
        regD := w / 2 ^ 8 % 2 ^ 4
        regS := w / 2 ^ 4 % 2 ^ 4
        regT := w % 2 ^ 4
        imm := w % 2 ^ 8 } := by
  have h1 := decode_opCode_eq w
  have h2 := decode_regD_eq w
  have h3 := decode_regS_eq w
  have h4 := decode_regT_eq w
  have h5 := decode_imm_eq w
  cases hd : decode w
  simp only [hd] at h1 h2 h3 h4 h5
  simp_all

/-- C3: the claim states that an immediate byte with bit 7 set is
sign-extended, so that byte 0xFF contributes -1.  Evaluating the code at the
failing input: loading the ADD-immediate instruction 0x90FF into a fresh
machine and stepping stores 255 (zero-extension) into register 0, not 65535
(the 16-bit two's-complement value of -1). -/
theorem c3_imm_not_sign_extended :
    ((LoadProgram New [0x90, 0xFF] 0).bind step).map (fun c => regGet c 0) =
      some 255 ∧ (255 : Nat) ≠ 65535 := by
  constructor
  · decide
  · decide

/-- C4: the claim states that a word store whose effective address is
capacity-1 halts the engine with a BoundsFault (running becomes false)
without a partial write.  Evaluating the code at the failing input: the
code performs no bounds check, so executing the store-word instruction
0xD00F (effective address 15 = MemorySize - 1) on a fresh machine hits an
out-of-range slice write, a Go run-time panic (modelled `none`), not a
halted machine state. -/
theorem c4_store_at_boundary_panics :
    (LoadProgram New [0xD0, 0x0F] 0).bind step = none := by
  decide

/-- C5: register-register ALU arithmetic is unsigned 16-bit with
wraparound: when the fetched word decodes to ADD (opcode 1) the destination
register receives (regS + regT) mod 2^16, and when it decodes to SUB
(opcode 2) it receives the integer difference regS - regT reduced modulo
2^16 (two's-complement wraparound). -/
theorem c5_alu_add_sub_mod_2_16 (c : MTMC) (w : Nat)
    (hreg : c.Registers.length = 16)
    (hv : ∀ v ∈ c.Registers, v < 65536)
    (hpc : regGet c PCreg < MemorySize - 1)
    (hw : readWord c.Memory (regGet c PCreg) = some w)
    (hS : (decode w).regS ≠ PCreg) (hT : (decode w).regT ≠ PCreg) :
    ((decode w).opCode = 1 →
      ∃ c', step c = some c' ∧
        (regGet c' (decode w).regD : Int) =
          ((regGet c (decode w).regS : Int) + (regGet c (decode w).regT : Int)) % 65536) ∧
    ((decode w).opCode = 2 →
      ∃ c', step c = some c' ∧
        (regGet c' (decode w).regD : Int) =
          ((regGet c (decode w).regS : Int) - (regGet c (decode w).regT : Int)) % 65536) := by
  have hrw := step_eq c w hpc hw
  set c2 := regSet c PCreg ((regGet c PCreg + 2) % 65536) with hc2
  have hlen2 : c2.Registers.length = 16 := by
    simp [hc2, regSet, List.length_set, hreg]
  have hSne : regGet c2 (decode w).regS = regGet c (decode w).regS := by
    simp only [hc2, regSet, regGet]
    exact getD_set_ne _ _ _ _ (fun h => hS h.symm)
  have hTne : regGet c2 (decode w).regT = regGet c (decode w).regT := by
    simp only [hc2, regSet, regGet]
    exact getD_set_ne _ _ _ _ (fun h => hT h.symm)
  have hbT : regGet c (decode w).regT < 65536 :=
    getD_lt_of_all c.Registers 65536 (decode w).regT (by decide) hv
  constructor
  · intro hop
    refine ⟨_, by rw [hrw, execute_add c2 (decode w) hop], ?_⟩
    have hgd : regGet (regSet c2 (decode w).regD
        ((regGet c2 (decode w).regS + regGet c2 (decode w).regT) % 65536))
        (decode w).regD =
        (regGet c2 (decode w).regS + regGet c2 (decode w).regT) % 65536 := by
      unfold regGet regSet
      exact getD_set_self _ _ _ (by rw [hlen2]; exact decode_regD_lt w)
    rw [hgd, hSne, hTne]
    omega
  · intro hop
    refine ⟨_, by rw [hrw, execute_sub c2 (decode w) hop], ?_⟩
    have hgd : regGet (regSet c2 (decode w).regD
        (sub16 (regGet c2 (decode w).regS) (regGet c2 (decode w).regT)))
        (decode w).regD =
        sub16 (regGet c2 (decode w).regS) (regGet c2 (decode w).regT) := by
      unfold regGet regSet
      exact getD_set_self _ _ _ (by rw [hlen2]; exact decode_regD_lt w)
    rw [hgd, hSne, hTne]
    unfold sub16
    omega

/-- Witness for C5: on concrete machines, ADD with regS=2, regT=3 yields
regD=5; SUB with regS=5, regT=3 yields regD=2; ADD with regS=65535, regT=1
wraps to regD=0. -/
theorem c5_alu_add_sub_mod_2_16_witness :
    (∃ c', step addEx = some c' ∧ (regGet c' 3 : Int) = 5) ∧
    (∃ c', step subEx = some c' ∧ (regGet c' 3 : Int) = 2) ∧
    (∃ c', step wrapEx = some c' ∧ (regGet c' 3 : Int) = 0) := by
  refine ⟨?_, ?_, ?_⟩
  · obtain ⟨c', h1, h2⟩ :=
      (c5_alu_add_sub_mod_2_16 addEx 0x1312 (by decide) (by decide) (by decide)
        (by decide) (by decide) (by decide)).1 (by decide)
    refine ⟨c', h1, ?_⟩
    have hD : (decode 0x1312).regD = 3 := by decide
    rw [← hD, h2]
    decide
  · obtain ⟨c', h1, h2⟩ :=
      (c5_alu_add_sub_mod_2_16 subEx 0x2312 (by decide) (by decide) (by decide)
        (by decide) (by decide) (by decide)).2 (by decide)
    refine ⟨c', h1, ?_⟩
    have hD : (decode 0x2312).regD = 3 := by decide
    rw [← hD, h2]
    decide
  · obtain ⟨c', h1, h2⟩ :=
      (c5_alu_add_sub_mod_2_16 wrapEx 0x1312 (by decide) (by decide) (by decide)
        (by decide) (by decide) (by decide)).1 (by decide)
    refine ⟨c', h1, ?_⟩
    have hD : (decode 0x1312).regD = 3 := by decide
    rw [← hD, h2]
    decide

end MTMCEmu

namespace MTMCEmu

/-- C6: for every branch-if-zero instruction (opcode 14), if the tested
register holds 0 the program counter becomes the encoded (relative) branch
target, old PC + 2 + 2*imm; if it holds a nonzero value the program counter
becomes the next sequential address, old PC + 2; memory, the running flag
and every register other than the program counter are unchanged in both
cases. -/
theorem c6_branch_if_zero (c : MTMC) (w : Nat)
    (hreg : c.Registers.length = 16)
    (hpc : regGet c PCreg < MemorySize - 1)
    (hw : readWord c.Memory (regGet c PCreg) = some w)
    (hS : (decode w).regS ≠ PCreg)
    (hop : (decode w).opCode = 14) :
    ∃ c', step c = some c' ∧
      c'.Memory = c.Memory ∧ c'.Running = c.Running ∧
      (∀ j, j ≠ PCreg → regGet c' j = regGet c j) ∧
      (regGet c (decode w).regS = 0 →
        regGet c' PCreg = regGet c PCreg + 2 + 2 * (decode w).imm) ∧
      (regGet c (decode w).regS ≠ 0 →
        regGet c' PCreg = regGet c PCreg + 2) := by
  have hrw := step_eq c w hpc hw
  set c2 := regSet c PCreg ((regGet c PCreg + 2) % 65536) with hc2
  have hpc15 : regGet c PCreg < 15 := by rw [MemorySize_eq] at hpc; omega
  have himm : (decode w).imm ≤ 255 := decode_imm_le w
  have hp2 : regGet c2 PCreg = (regGet c PCreg + 2) % 65536 := by
    simp only [hc2, regSet, regGet]
    exact getD_set_self _ _ _ (by rw [hreg]; decide)
  have hS2 : regGet c2 (decode w).regS = regGet c (decode w).regS := by
    simp only [hc2, regSet, regGet]
    exact getD_set_ne _ _ _ _ (fun h => hS h.symm)
  by_cases hz : regGet c (decode w).regS = 0
  · refine ⟨_, by rw [hrw, execute_bz c2 (decode w) hop, if_pos (hS2.trans hz)],
      ?_, ?_, ?_, ?_, ?_⟩
    · simp [hc2, regSet]
    · simp [hc2, regSet]
    · intro j hj
      simp only [hc2, regSet, regGet]
      rw [getD_set_ne _ _ _ _ (fun h => hj h.symm),
        getD_set_ne _ _ _ _ (fun h => hj h.symm)]
    · intro _
      have hval : regGet (regSet c2 PCreg
          ((regGet c2 PCreg + (decode w).imm * 2 % 65536) % 65536)) PCreg
          = (regGet c2 PCreg + (decode w).imm * 2 % 65536) % 65536 := by
        unfold regGet regSet
        exact getD_set_self _ _ _
          (by simp only [hc2, regSet, List.length_set, hreg]; decide)
      rw [hval, hp2]
      omega
    · intro hnz; exact absurd hz hnz
  · refine ⟨_, by rw [hrw, execute_bz c2 (decode w) hop,
        if_neg (fun h => hz (hS2.symm.trans h))], ?_, ?_, ?_, ?_, ?_⟩
    · simp [hc2, regSet]
    · simp [hc2, regSet]
    · intro j hj
      simp only [hc2, regSet, regGet]
      rw [getD_set_ne _ _ _ _ (fun h => hj h.symm)]
    · intro h0; exact absurd h0 hz
    · intro _
      rw [hp2]
      omega

/-- Witness for C6: on `bzTakenEx` the tested register holds 0 and the
branch is taken; on `bzFallEx` it holds 7 and execution falls through. -/
theorem c6_branch_if_zero_witness :
    (∃ c', step bzTakenEx = some c' ∧
      c'.Memory = bzTakenEx.Memory ∧ c'.Running = bzTakenEx.Running ∧
      (∀ j, j ≠ PCreg → regGet c' j = regGet bzTakenEx j) ∧
      (regGet bzTakenEx (decode 0xE010).regS = 0 →
        regGet c' PCreg = regGet bzTakenEx PCreg + 2 + 2 * (decode 0xE010).imm) ∧
      (regGet bzTakenEx (decode 0xE010).regS ≠ 0 →
        regGet c' PCreg = regGet bzTakenEx PCreg + 2)) ∧
    (∃ c', step bzFallEx = some c' ∧
      c'.Memory = bzFallEx.Memory ∧ c'.Running = bzFallEx.Running ∧
      (∀ j, j ≠ PCreg → regGet c' j = regGet bzFallEx j) ∧
      (regGet bzFallEx (decode 0xE010).regS = 0 →
        regGet c' PCreg = regGet bzFallEx PCreg + 2 + 2 * (decode 0xE010).imm) ∧
      (regGet bzFallEx (decode 0xE010).regS ≠ 0 →
        regGet c' PCreg = regGet bzFallEx PCreg + 2)) := by
  constructor
  · exact c6_branch_if_zero bzTakenEx 0xE010 (by decide) (by decide) (by decide)
      (by decide) (by decide)
  · exact c6_branch_if_zero bzFallEx 0xE010 (by decide) (by decide) (by decide)
      (by decide) (by decide)

/-- C7: for every instruction whose opcode is not in the dispatch table
(the opcodes 0, 8 and 11 are the 4-bit values with no case), the step
returns normally (no caller-visible error), sets running to false, and
leaves memory and every register other than the already-advanced program
counter unchanged. -/
theorem c7_unknown_opcode_halts (c : MTMC) (w : Nat)
    (hreg : c.Registers.length = 16)
    (hpc : regGet c PCreg < MemorySize - 1)
    (hw : readWord c.Memory (regGet c PCreg) = some w)
    (hop : (decode w).opCode ∉ ([1, 2, 3, 4, 5, 6, 7, 9, 10, 12, 13, 14, 15] : List Nat)) :
    ∃ c', step c = some c' ∧ c'.Running = false ∧ c'.Memory = c.Memory ∧
      (∀ j, j ≠ PCreg → regGet c' j = regGet c j) ∧
      regGet c' PCreg = regGet c PCreg + 2 := by
  have hrw := step_eq c w hpc hw
  set c2 := regSet c PCreg ((regGet c PCreg + 2) % 65536) with hc2
  have hpc15 : regGet c PCreg < 15 := by rw [MemorySize_eq] at hpc; omega
  have h16 := decode_opCode_lt w
  have hcases : (decode w).opCode = 0 ∨ (decode w).opCode = 8 ∨ (decode w).opCode = 11 := by
    simp only [List.mem_cons, List.not_mem_nil, or_false] at hop
    omega
  have hp2 : regGet c2 PCreg = (regGet c PCreg + 2) % 65536 := by
    simp only [hc2, regSet, regGet]
    exact getD_set_self _ _ _ (by rw [hreg]; decide)
  refine ⟨_, by rw [hrw, execute_unknown c2 (decode w) hcases], ?_, ?_, ?_, ?_⟩
  · rfl
  · simp [hc2, regSet]
  · intro j hj
    simp only [hc2, regSet, regGet]
    rw [getD_set_ne _ _ _ _ (fun h => hj h.symm)]
  · show regGet c2 PCreg = _
    rw [hp2]
    omega

/-- Witness for C7: a fresh machine fetches the word 0 at PC 0, whose
opcode 0 is not in the dispatch table; the step halts it cleanly. -/
theorem c7_unknown_opcode_halts_witness :
    ∃ c', step New = some c' ∧ c'.Running = false ∧ c'.Memory = New.Memory ∧
      (∀ j, j ≠ PCreg → regGet c' j = regGet New j) ∧
      regGet c' PCreg = regGet New PCreg + 2 :=
  c7_unknown_opcode_halts New 0 (by decide) (by decide) (by decide) (by decide)

end MTMCEmu

namespace MTMCEmu

/-- C8: for every byte sequence and base address that fit within the
memory capacity, `LoadProgram` returns normally, copies the bytes verbatim
into memory starting at the base address, leaves all other memory bytes
unchanged, sets the program counter to the base address, leaves run-mode
Paused (running stays false) on return, and a subsequent fetch reads the
instruction word formed from the first two loaded bytes. -/
theorem c8_load_program (c : MTMC) (p : List Nat) (a : Nat)
    (hmem : c.Memory.length = MemorySize)
    (hreg : c.Registers.length = 16)
    (hlen : a + p.length ≤ MemorySize)
    (hrun : c.Running = false) :
    ∃ c', LoadProgram c p a = some c' ∧
      (∀ i, i < p.length → c'.Memory.getD (a + i) 0 = p.getD i 0) ∧
      (∀ j, j < a ∨ a + p.length ≤ j → c'.Memory.getD j 0 = c.Memory.getD j 0) ∧
      regGet c' PCreg = a ∧
      c'.Running = false ∧
      (2 ≤ p.length → a < MemorySize - 1 →
        readWord c'.Memory (regGet c' PCreg) =
          some (p.getD 0 0 <<< 8 ||| p.getD 1 0)) := by
  have ha : a % 65536 = a := Nat.mod_eq_of_lt (by rw [MemorySize_eq] at hlen; omega)
  have hload : LoadProgram c p a =
      some { c with
        Memory := copyInto c.Memory a p
        Registers := c.Registers.set PCreg a } := by
    unfold LoadProgram
    rw [ha, if_pos (by rw [hmem]; omega)]
  have hclen : (copyInto c.Memory a p).length = c.Memory.length :=
    copyInto_length p c.Memory a
  have hpcv : (c.Registers.set PCreg a).getD PCreg 0 = a :=
    getD_set_self _ _ _ (by rw [hreg]; decide)
  refine ⟨_, hload, ?_, ?_, ?_, ?_, ?_⟩
  · intro i hi
    exact copyInto_getD_mid p c.Memory a i hi (by omega)
  · intro j hj
    rcases hj with hj | hj
    · exact copyInto_getD_lt p c.Memory a j hj
    · exact copyInto_getD_ge p c.Memory a j hj
  · exact hpcv
  · exact hrun
  · intro h2 hlt
    show readWord (copyInto c.Memory a p) ((c.Registers.set PCreg a).getD PCreg 0) = _
    rw [hpcv]
    unfold readWord
    rw [if_pos (by rw [hclen, hmem, MemorySize_eq] at *; omega)]
    rw [show (copyInto c.Memory a p).getD a 0 = p.getD 0 0 from
        copyInto_getD_mid p c.Memory a 0 (by omega) (by omega),
      show (copyInto c.Memory a p).getD (a + 1) 0 = p.getD 1 0 from
        copyInto_getD_mid p c.Memory a 1 (by omega) (by omega)]

/-- Witness for C8: loading the two-byte program [0x13, 0x12] at address 0
into a fresh machine. -/
theorem c8_load_program_witness :
    ∃ c', LoadProgram New [0x13, 0x12] 0 = some c' ∧
      (∀ i, i < ([0x13, 0x12] : List Nat).length →
        c'.Memory.getD (0 + i) 0 = ([0x13, 0x12] : List Nat).getD i 0) ∧
      (∀ j, j < 0 ∨ 0 + ([0x13, 0x12] : List Nat).length ≤ j →
        c'.Memory.getD j 0 = New.Memory.getD j 0) ∧
      regGet c' PCreg = 0 ∧
      c'.Running = false ∧
      (2 ≤ ([0x13, 0x12] : List Nat).length → 0 < MemorySize - 1 →
        readWord c'.Memory (regGet c' PCreg) =
          some (([0x13, 0x12] : List Nat).getD 0 0 <<< 8 |||
            ([0x13, 0x12] : List Nat).getD 1 0)) :=
  c8_load_program New [0x13, 0x12] 0 (by decide) (by decide) (by decide) rfl

/-- C10: the claim states that `GetState` returns a snapshot without
faulting, which needs memory capacity at least 256 for the `Memory[0:256]`
window.  Evaluating the code at the failing input: the capacity is 16, so
the window slicing faults (`none`) on every freshly created machine. -/
theorem c10_getstate_window_faults :
    GetState New = none ∧ ¬ 256 ≤ MemorySize := by
  constructor
  · decide
  · decide

end MTMCEmu
